import Mathlib

/-!
Shallow embedding of the duplicate-book detection engine
(`find_duplicates` tool: similarity scorer, title normalizer, identifier
matcher, grouping engine with three strategies and a targeted mode).

JS strings are modelled as `List Char`; JS `Set` as `Finset`; JS numbers
(the similarity score and threshold) as `ℚ`; `undefined`-able fields as
`Option`. Functions keep the source structure and names.
-/

namespace DupEngine

/-- A JS string, modelled as its character sequence. -/
abbrev Str := List Char

/-- JS whitespace (`\s`) restricted to the ASCII whitespace characters:
space, tab, newline, carriage return, vertical tab, form feed. -/
def isWs (c : Char) : Bool :=
  c == ' ' || c == '\t' || c == '\n' || c == '\r' || c.toNat == 11 || c.toNat == 12

/-- JS `String.prototype.trim`: drop leading and trailing whitespace. -/
def trimStr (s : Str) : Str :=
  ((s.dropWhile isWs).reverse.dropWhile isWs).reverse

/-- JS `String.prototype.toLowerCase` (ASCII letters). -/
def lowerStr (s : Str) : Str :=
  s.map Char.toLower

/-- Accumulator pass for `wordsOf`: maximal runs of non-whitespace. -/
def wordsAux : Str → Str → List Str
  | [], cur => if cur = [] then [] else [cur.reverse]
  | c :: cs, cur =>
    if isWs c then
      if cur = [] then wordsAux cs [] else cur.reverse :: wordsAux cs []
    else wordsAux cs (c :: cur)

/-- JS `str.split(/\s+/)` on a trimmed string: the maximal runs of
non-whitespace characters, in order (no empty tokens). -/
def wordsOf (s : Str) : List Str :=
  wordsAux s []

/--
Function `similarity` (src/unnamed/part_011 lines 69-84): lower-case and trim both
inputs; identical strings score 1; an empty side scores 0; otherwise the
Jaccard index of the two whitespace-token sets.
-/
def similarity (s1 s2 : Str) : ℚ :=
  let str1 := trimStr (lowerStr s1)
  let str2 := trimStr (lowerStr s2)
  if str1 = str2 then 1
  else if str1 = [] ∨ str2 = [] then 0
  else
    let tokens1 := (wordsOf str1).toFinset
    let tokens2 := (wordsOf str2).toFinset
    (((tokens1 ∩ tokens2).card : ℚ)) / (((tokens1 ∪ tokens2).card : ℚ))

/-- The token set the similarity scorer compares for one input string. -/
def scorerTokens (s : Str) : Finset Str :=
  (wordsOf (trimStr (lowerStr s))).toFinset

/-- One alternative of the article regex `/^(the|a|an)\s+/`: if `s` starts
with `art` followed by at least one whitespace character, the remainder
after the article and the greedy whitespace run. -/
def dropArticle (art s : Str) : Option Str :=
  let rest := s.drop art.length
  match rest.head? with
  | some c =>
    if s.take art.length = art ∧ isWs c then some (rest.dropWhile isWs) else none
  | none => none

/-- Normalizer step `.replace(/^(the|a|an)\s+/i, "")`: strip a single leading article token
followed by whitespace.  The three alternatives are mutually exclusive on
any input, so trying them in order matches the regex. -/
def stripArticle (s : Str) : Str :=
  match dropArticle ('t' :: 'h' :: 'e' :: []) s with
  | some r => r
  | none =>
    match dropArticle ('a' :: 'n' :: []) s with
    | some r => r
    | none =>
      match dropArticle ('a' :: []) s with
      | some r => r
      | none => s

/-- A JS line terminator as seen by `.` in a regex. -/
def isLineTerm (c : Char) : Bool :=
  c == '\n' || c == '\r'

/-- Consume the `.*` of the subtitle regex: drop the rest of the line. -/
def dropLine (s : Str) : Str :=
  s.dropWhile (fun c => !isLineTerm c)

/-- Recursion core for `removeSubtitle`.  The fuel only serves structural
recursion: every recursive call strictly shrinks the string, so fuel equal
to the string length is never exhausted (`removeSubtitleGo_fuel`). -/
def removeSubtitleGo : Nat → Str → Str
  | 0, s => s
  | _ + 1, [] => []
  | fuel + 1, c :: cs =>
    if c == ':' || c == ';' then removeSubtitleGo fuel (dropLine (cs.dropWhile isWs))
    else if isWs c then
      match cs.dropWhile isWs with
      | [] => c :: cs
      | d :: ds =>
        if d == ':' || d == ';' then removeSubtitleGo fuel (dropLine (ds.dropWhile isWs))
        else (c :: cs.takeWhile isWs) ++ d :: removeSubtitleGo fuel ds
    else c :: removeSubtitleGo fuel cs

/-- Normalizer step `.replace(/\s*[:;]\s*.*/g, "")`: at each match, remove the whitespace
run preceding the first `:` or `;`, the delimiter, the whitespace after it,
and the rest of that line; then continue scanning after the match. -/
def removeSubtitle (s : Str) : Str :=
  removeSubtitleGo s.length s

/-- JS `\w`: ASCII letters, digits, underscore. -/
def isWordChar (c : Char) : Bool :=
  c.isAlphanum || c == '_'

/--
Function `normalizeTitle` (src/unnamed/part_011 lines 89-96): lower-case, strip a
leading article, remove the subtitle, remove characters that are neither
word characters nor whitespace, and trim.
-/
def normalizeTitle (t : Str) : Str :=
  trimStr (((removeSubtitle (stripArticle (lowerStr t))).filter
    (fun c => isWordChar c || isWs c)))

/-- A bibliographic record (`interface Book`, src/unnamed/part_011 lines
52-58).  `identifiers`/`formats` are `undefined`-able in the source. -/
structure Book where
  id : Nat
  title : Str
  authors : Str
  identifiers : Option Str := none
  formats : Option Str := none
deriving DecidableEq, Repr

/-- An output unit (`interface DuplicateGroup`, lines 60-63). -/
structure DuplicateGroup where
  reason : Str
  books : List Book
deriving DecidableEq, Repr

/-- The detection mode enum (`schema.mode`, lines 9-14). -/
inductive Mode where
  | title
  | author_title
  | identifier
deriving DecidableEq, Repr

/-- Decimal rendering of a natural number, as JS string interpolation. -/
def natToStr (n : Nat) : Str :=
  Nat.toDigits 10 n

/-- JS `Math.round`: round half toward positive infinity. -/
def roundJS (q : ℚ) : ℤ :=
  ⌊q + 1 / 2⌋

/-- Decimal rendering of an integer, as JS string interpolation. -/
def intToStr (z : ℤ) : Str :=
  if z < 0 then '-' :: natToStr z.natAbs else natToStr z.toNat

/-- Reason text of a title-strategy group (line 149). -/
def titleReason (threshold : ℚ) : Str :=
  ("Similar titles (").toList ++ intToStr (roundJS (threshold * 100)) ++ ("%+ match)").toList

/-- Reason text of an author_title-strategy group (line 198). -/
def authorReason (author : Str) : Str :=
  ("Same author \"").toList ++ author ++ ("\" with similar titles").toList

/-- Inner `j`-loop of the greedy claim step (lines 137-145): walk the books
after the seed, skip already-claimed ids, and claim every record whose
normalized title scores at least `threshold` against the seed's normalized
title.  Returns the claimed records in order and the updated claimed set. -/
def collectSims (normalizedTitle : Str) (threshold : ℚ) :
    List Book → Finset Nat → List Book × Finset Nat
  | [], processed => ([], processed)
  | b :: bs, processed =>
    if b.id ∈ processed then collectSims normalizedTitle threshold bs processed
    else if threshold ≤ similarity normalizedTitle (normalizeTitle b.title) then
      let r := collectSims normalizedTitle threshold bs (insert b.id processed)
      (b :: r.1, r.2)
    else collectSims normalizedTitle threshold bs processed

/-- Outer `i`-loop of `findDuplicatesByTitle` (lines 130-153).  `count` is
the number of groups emitted so far; the loop condition re-checks it before
every iteration. -/
def byTitleGo (threshold : ℚ) (limit : Nat) :
    List Book → Finset Nat → Nat → List DuplicateGroup
  | [], _, _ => []
  | b :: bs, processed, count =>
    if limit ≤ count then []
    else if b.id ∈ processed then byTitleGo threshold limit bs processed count
    else
      let r := collectSims (normalizeTitle b.title) threshold bs (insert b.id processed)
      let duplicates := b :: r.1
      if 1 < duplicates.length then
        { reason := titleReason threshold, books := duplicates } ::
          byTitleGo threshold limit bs r.2 (count + 1)
      else byTitleGo threshold limit bs r.2 count

/-- Function `findDuplicatesByTitle` (src/unnamed/part_011 lines 122-156). -/
def findDuplicatesByTitle (books : List Book) (threshold : ℚ) (limit : Nat) :
    List DuplicateGroup :=
  byTitleGo threshold limit books ∅ 0

/-- The author bucket key: `book.authors.toLowerCase().trim()` (line 169). -/
def authorKey (b : Book) : Str :=
  trimStr (lowerStr b.authors)

/-- Keys of the `byAuthor` map in first-insertion order (lines 167-174). -/
def bucketKeys (books : List Book) : List Str :=
  books.foldl (fun ks b => if authorKey b ∈ ks then ks else ks ++ [authorKey b]) []

/-- The bucket of one author key: the books with that key, in input order. -/
def bucketOf (books : List Book) (k : Str) : List Book :=
  books.filter (fun b => authorKey b = k)

/-- Inner `i`-loop of `findDuplicatesByAuthorTitle` within one author
bucket (lines 179-202).  The claimed set and the global group count are
shared across buckets, so they are threaded in and out. -/
def authorBucketGo (threshold : ℚ) (limit : Nat) (author : Str) :
    List Book → Finset Nat → Nat → List DuplicateGroup × Finset Nat
  | [], processed, _ => ([], processed)
  | b :: bs, processed, count =>
    if limit ≤ count then ([], processed)
    else if b.id ∈ processed then authorBucketGo threshold limit author bs processed count
    else
      let r := collectSims (normalizeTitle b.title) threshold bs (insert b.id processed)
      let duplicates := b :: r.1
      if 1 < duplicates.length then
        let rest := authorBucketGo threshold limit author bs r.2 (count + 1)
        ({ reason := authorReason author, books := duplicates } :: rest.1, rest.2)
      else authorBucketGo threshold limit author bs r.2 count

/-- Body of the per-bucket loop of `findDuplicatesByAuthorTitle` (lines
176-203): skip buckets with fewer than two members, otherwise run the
greedy claim loop on the bucket, threading the shared claimed set and the
global group count. -/
def authorFoldStep (books : List Book) (threshold : ℚ) (limit : Nat)
    (acc : List DuplicateGroup × Finset Nat) (k : Str) :
    List DuplicateGroup × Finset Nat :=
  let bucket := bucketOf books k
  if bucket.length < 2 then acc
  else
    let r := authorBucketGo threshold limit k bucket acc.2 acc.1.length
    (acc.1 ++ r.1, r.2)

/-- Function `findDuplicatesByAuthorTitle` (lines 158-206): bucket by author key,
then run the greedy claim loop in each bucket with at least two members,
in bucket-discovery order, with a global group cap. -/
def findDuplicatesByAuthorTitle (books : List Book) (threshold : ℚ) (limit : Nat) :
    List DuplicateGroup :=
  ((bucketKeys books).foldl (authorFoldStep books threshold limit)
    (([] : List DuplicateGroup), (∅ : Finset Nat))).1

/-- Identifier tokens of a record as parsed by the full scan (line 216):
split on commas, trim, lower-case.  A missing or empty `identifiers`
string contributes nothing (the `if (!book.identifiers) continue`). -/
def idTokens (b : Book) : List Str :=
  match b.identifiers with
  | none => []
  | some s => if s = [] then [] else (s.splitOn ',').map (fun t => lowerStr (trimStr t))

/-- The tokens kept by the full scan (line 219): drop empty tokens and the
literal token `null`. -/
def validTokensOf (b : Book) : List Str :=
  (idTokens b).filter (fun t => ¬(t = [] ∨ t = ("null").toList))

/-- Keys of the `byIdentifier` map in first-insertion order (lines 210-226). -/
def identTokenOrder (books : List Book) : List Str :=
  books.foldl
    (fun ks b => (validTokensOf b).foldl (fun ks t => if t ∈ ks then ks else ks ++ [t]) ks)
    []

/-- The bucket of one identifier token: each record is pushed once per
occurrence of the token in its identifier list (lines 218-225). -/
def identBucket (books : List Book) (t : Str) : List Book :=
  books.flatMap (fun b => List.replicate ((validTokensOf b).count t) b)

/-- Emission loop of `findDuplicatesByIdentifier` (lines 228-238). -/
def identGo (books : List Book) (limit : Nat) :
    List Str → List Str → Nat → List DuplicateGroup
  | [], _, _ => []
  | t :: ts, processed, count =>
    let bucket := identBucket books t
    if bucket.length < 2 ∨ t ∈ processed then identGo books limit ts processed count
    else if limit ≤ count then []
    else
      { reason := ("Matching identifier: ").toList ++ t, books := bucket } ::
        identGo books limit ts (t :: processed) (count + 1)

/-- Function `findDuplicatesByIdentifier` (lines 208-241). -/
def findDuplicatesByIdentifier (books : List Book) (limit : Nat) : List DuplicateGroup :=
  identGo books limit (identTokenOrder books) [] 0

/-- JS truthiness of the `identifiers` field: present and non-empty. -/
def idsTruthy (b : Book) : Bool :=
  match b.identifiers with
  | none => false
  | some s => !s.isEmpty

/-- Identifier tokens as parsed by targeted mode (lines 264-265, 272-274):
split on commas, trim, lower-case — with no dropping of empty or `null`
tokens, unlike the full scan. -/
def rawIdTokens (b : Book) : List Str :=
  match b.identifiers with
  | none => []
  | some s => (s.splitOn ',').map (fun t => lowerStr (trimStr t))

/-- Targeted mode (lines 261-290): the flat list of records similar to the
focal record.  With the `identifier` strategy and a truthy identifiers
field on the focal record, records sharing a raw identifier token;
otherwise a title comparison against the focal record's normalized title,
restricted to a case-folded (untrimmed) author match for `author_title`. -/
def targetedDuplicates (mode : Mode) (targetBook : Book) (allBooks : List Book)
    (threshold : ℚ) : List Book :=
  if mode = Mode.identifier ∧ idsTruthy targetBook then
    let targetIds := (rawIdTokens targetBook).toFinset
    allBooks.filter (fun b =>
      b.id ≠ targetBook.id ∧ idsTruthy b ∧ (rawIdTokens b).any (fun t => t ∈ targetIds))
  else
    let normalizedTarget := normalizeTitle targetBook.title
    allBooks.filter (fun b =>
      if b.id = targetBook.id then false
      else if mode = Mode.author_title ∧ ¬lowerStr b.authors = lowerStr targetBook.authors
        then false
      else threshold ≤ similarity normalizedTarget (normalizeTitle b.title))

/-- The `lines.join("\n")` of the report builders. -/
def joinLines (ls : List Str) : Str :=
  List.intercalate (['\n'] : Str) ls

/-- The zod mode names. -/
def modeStr : Mode → Str
  | Mode.title => ("title").toList
  | Mode.author_title => ("author_title").toList
  | Mode.identifier => ("identifier").toList

/-- The not-found outcome of targeted mode (line 255). -/
def notFoundMsg (bookId : Nat) : Str :=
  ("Book not found with ID: ").toList ++ natToStr bookId

/-- The zero-duplicates outcome of targeted mode (line 293). -/
def noDupMsg (targetBook : Book) : Str :=
  ("No potential duplicates found for \"").toList ++ targetBook.title ++
    ("\" by ").toList ++ targetBook.authors

/-- The empty-library outcome of the full scan (line 319). -/
def noBooksMsg : Str :=
  ("No books found in the library.").toList

/-- The zero-groups outcome of the full scan (line 337). -/
def noGroupsMsg (mode : Mode) : Str :=
  ("No potential duplicates found using ").toList ++ modeStr mode ++
    (" detection mode.").toList

/-- The targeted-mode markdown report (lines 296-312). -/
def targetedReport (targetBook : Book) (duplicates : List Book) : Str :=
  joinLines (
    [("# Potential Duplicates of \"").toList ++ targetBook.title ++ ("\"").toList,
     [],
     ("**Original:** ID ").toList ++ natToStr targetBook.id ++ (" - ").toList ++
       targetBook.title ++ (" by ").toList ++ targetBook.authors,
     [],
     ("**Found ").toList ++ natToStr duplicates.length ++
       (" potential duplicate(s):**").toList,
     []] ++
    duplicates.flatMap (fun dup =>
      (("- **ID ").toList ++ natToStr dup.id ++ (":** ").toList ++ dup.title ++
        (" by ").toList ++ dup.authors) ::
      (match dup.formats with
       | some f => if f = [] then [] else [("  Formats: ").toList ++ f]
       | none => [])))

/-- One group of the full-scan markdown report (lines 349-362), numbered
from 1. -/
def renderGroup (i : Nat) (g : DuplicateGroup) : List Str :=
  (("## Group ").toList ++ natToStr (i + 1) ++ (": ").toList ++ g.reason) ::
  ([] : Str) ::
  (g.books.flatMap (fun book =>
    (("- **ID ").toList ++ natToStr book.id ++ (":** ").toList ++ book.title) ::
    (("  Author: ").toList ++ book.authors) ::
    (match book.formats with
     | some f => if f = [] then [] else [("  Formats: ").toList ++ f]
     | none => []))) ++ [([] : Str)]

/-- The full-scan markdown report (lines 340-368). -/
def fullReport (mode : Mode) (books : List Book) (groups : List DuplicateGroup) : Str :=
  joinLines (
    [("# Potential Duplicates Found").toList,
     [],
     ("**Detection mode:** ").toList ++ modeStr mode,
     ("**Books scanned:** ").toList ++ natToStr books.length,
     ("**Duplicate groups found:** ").toList ++ natToStr groups.length,
     []] ++
    (groups.enum.flatMap (fun p => renderGroup p.1 p.2)) ++
    [("---").toList, [],
     ("Use `get_book_details` to compare books before deciding which to keep.").toList])

/--
The tool handler `findDuplicates` (lines 243-369) as a pure function over
the library state: the two calibredb fetches are modelled by the `library`
argument, with `getBookById` as an id lookup in that same library.
-/
def findDuplicates (mode : Mode) (bookId : Option Nat) (threshold : ℚ) (limit : Nat)
    (library : List Book) : Str :=
  match bookId with
  | some i =>
    match library.find? (fun b => b.id = i) with
    | none => notFoundMsg i
    | some targetBook =>
      let duplicates := targetedDuplicates mode targetBook library threshold
      if duplicates.length = 0 then noDupMsg targetBook
      else targetedReport targetBook duplicates
  | none =>
    if library.length = 0 then noBooksMsg
    else
      let groups :=
        match mode with
        | Mode.title => findDuplicatesByTitle library threshold limit
        | Mode.author_title => findDuplicatesByAuthorTitle library threshold limit
        | Mode.identifier => findDuplicatesByIdentifier library limit
      if groups.length = 0 then noGroupsMsg mode
      else fullReport mode library groups

/-- All record ids listed by a group list, in order. -/
def groupIds (gs : List DuplicateGroup) : List Nat :=
  gs.flatMap (fun g => g.books.map Book.id)

/-! ### Helper lemmas -/

theorem head?_dropWhile_not (p : Char → Bool) :
    ∀ (l : Str) {c : Char}, ((l.dropWhile p).head? = some c) → p c = false := by
  intro l
  induction l with
  | nil => intro c h; simp [List.dropWhile] at h
  | cons a l ih =>
    intro c h
    by_cases ha : p a
    · rw [List.dropWhile_cons_of_pos ha] at h
      exact ih h
    · rw [List.dropWhile_cons_of_neg ha] at h
      simp only [List.head?_cons, Option.some.injEq] at h
      rw [← h]
      exact Bool.eq_false_iff.2 ha

theorem trimStr_getLast_not_ws {s : Str} {c : Char}
    (h : (trimStr s).getLast? = some c) : isWs c = false := by
  unfold trimStr at h
  rw [List.getLast?_reverse] at h
  exact head?_dropWhile_not isWs _ h

theorem trimStr_head_not_ws {s : Str} {c : Char}
    (h : (trimStr s).head? = some c) : isWs c = false := by
  unfold trimStr at h
  rw [List.head?_reverse] at h
  rcases hB : (s.dropWhile isWs).reverse.dropWhile isWs with _ | ⟨b, bs⟩
  · rw [hB] at h; simp at h
  · have hsuf : (s.dropWhile isWs).reverse.dropWhile isWs <:+ (s.dropWhile isWs).reverse :=
      List.dropWhile_suffix isWs
    obtain ⟨t, ht⟩ := hsuf
    have h1 : ((s.dropWhile isWs).reverse).getLast? = some c := by
      rw [← ht, List.getLast?_append, h]
      rfl
    rw [List.getLast?_reverse] at h1
    exact head?_dropWhile_not isWs _ h1

/-! ### C4 -/

/-- Claim C4 counterexample: the claim says every maximal whitespace run in a
normalized title is a single space, but `normalizeTitle` never collapses
interior whitespace: the input `"ab  cd"` normalizes to itself, keeping
the two-space run between the words. -/
theorem C4_counterexample :
    normalizeTitle (("ab  cd").toList) = ("ab").toList ++ [' ', ' '] ++ ("cd").toList := by
  decide

/-- Claim C4 (amended): `normalizeTitle` ends with a trim, so its output has no
leading and no trailing whitespace; interior whitespace runs, however, are
preserved as-is rather than collapsed to single spaces. -/
theorem C4_amended (t : Str) :
    ((normalizeTitle t).head?.all fun c => !isWs c) = true ∧
    ((normalizeTitle t).getLast?.all fun c => !isWs c) = true := by
  constructor
  · rcases hh : (normalizeTitle t).head? with _ | ⟨c⟩
    · rfl
    · have := trimStr_head_not_ws (s := ((removeSubtitle (stripArticle (lowerStr t))).filter
        (fun c => isWordChar c || isWs c))) (c := c) hh
      simp [this]
  · rcases hh : (normalizeTitle t).getLast? with _ | ⟨c⟩
    · rfl
    · have := trimStr_getLast_not_ws (s := ((removeSubtitle (stripArticle (lowerStr t))).filter
        (fun c => isWordChar c || isWs c))) (c := c) hh
      simp [this]

/-! ### C9 -/

/-- Claim C9 counterexample: the claim says `similarity("", x) = 0` for every
non-empty `x`, but for the non-empty all-whitespace string `" "` both
sides trim to the empty string and the identical-strings branch returns 1. -/
theorem C9_counterexample :
    ([' '] : Str) ≠ [] ∧ similarity [] ([' '] : Str) = 1 := by
  decide

/-- Claim C9 (amended): `similarity("", x) = 0` for every `x` that is non-empty
after lower-casing and trimming, i.e. contains a non-whitespace character;
an all-whitespace `x` instead hits the identical-strings branch and scores 1. -/
theorem C9_amended (x : Str) (h : trimStr (lowerStr x) ≠ []) :
    similarity [] x = 0 := by
  unfold similarity
  have h0 : trimStr (lowerStr ([] : Str)) = [] := rfl
  rw [if_neg, if_pos]
  · exact Or.inl h0
  · rw [h0]
    exact fun he => h he.symm

/-- Claim C9 amended witness at `x = "a"`. -/
theorem C9_amended_witness : similarity [] (('a') :: []) = 0 :=
  C9_amended (('a') :: []) (by decide)

/-! ### C8 -/

theorem similarity_comm (a b : Str) : similarity a b = similarity b a := by
  simp only [similarity]
  by_cases h : trimStr (lowerStr a) = trimStr (lowerStr b)
  · rw [if_pos h, if_pos h.symm]
  · have h' : ¬ trimStr (lowerStr b) = trimStr (lowerStr a) := fun hh => h hh.symm
    rw [if_neg h, if_neg h']
    by_cases h2 : trimStr (lowerStr a) = [] ∨ trimStr (lowerStr b) = []
    · have h2' : trimStr (lowerStr b) = [] ∨ trimStr (lowerStr a) = [] := h2.symm
      rw [if_pos h2, if_pos h2']
    · have h2' : ¬ (trimStr (lowerStr b) = [] ∨ trimStr (lowerStr a) = []) :=
        fun hh => h2 hh.symm
      rw [if_neg h2, if_neg h2']
      rw [Finset.inter_comm, Finset.union_comm]

theorem similarity_nonneg (a b : Str) : 0 ≤ similarity a b := by
  simp only [similarity]
  split_ifs
  · norm_num
  · norm_num
  · positivity

theorem similarity_le_one (a b : Str) : similarity a b ≤ 1 := by
  simp only [similarity]
  split_ifs
  · norm_num
  · norm_num
  · apply div_le_one_of_le₀
    · exact_mod_cast Finset.card_le_card Finset.inter_subset_union
    · positivity

/-- Claim C8: `similarity` is symmetric and always lands in `[0, 1]`. -/
theorem C8_similarity_sym_range (a b : Str) :
    similarity a b = similarity b a ∧ 0 ≤ similarity a b ∧ similarity a b ≤ 1 :=
  ⟨similarity_comm a b, similarity_nonneg a b, similarity_le_one a b⟩

/-! ### C1 -/

/-- The three-record scenario of claim C1. -/
def C1books : List Book :=
  [⟨1, ("The Hobbit").toList, ("J.R.R. Tolkien").toList, none, none⟩,
   ⟨2, ("Hobbit, The").toList, ("J.R.R. Tolkien").toList, none, none⟩,
   ⟨3, ("Dune").toList, ("Frank Herbert").toList, none, none⟩]

unseal Rat.mul Rat.inv in
/-- Claim C1 counterexample: at threshold `0.8`, the full-scan title
strategy returns NO groups on the claimed scenario — the normalized titles
are `"hobbit"` and `"hobbit the"`, whose token-overlap similarity is only
`1/2`, below the threshold — so records 1 and 2 are not grouped. -/
theorem C1_counterexample :
    findDuplicatesByTitle C1books (4/5) 20 = [] ∧
    similarity (normalizeTitle (("The Hobbit").toList))
      (normalizeTitle (("Hobbit, The").toList)) = 1/2 := by
  decide

unseal Rat.mul Rat.inv in
/-- Claim C1 (amended): on the scenario records, the full-scan title
strategy at threshold `0.8` returns no groups (the pair scores `1/2`); at
threshold `0.5` it returns exactly one group whose members are ids 1 and 2
in that order, and record 3 belongs to no group. -/
theorem C1_amended :
    (findDuplicatesByTitle C1books (1/2) 20).map (fun g => g.books.map Book.id)
      = [[1, 2]] := by
  decide

/-! ### C2 -/

/-- A score of 1 means the scorer saw identical strings or identical token
sets; either way the two token sets coincide. -/
theorem sim_one_tokens {x y : Str} (h : (1 : ℚ) ≤ similarity x y) :
    scorerTokens x = scorerTokens y := by
  unfold scorerTokens
  simp only [similarity] at h
  by_cases he : trimStr (lowerStr x) = trimStr (lowerStr y)
  · rw [he]
  · rw [if_neg he] at h
    by_cases h2 : trimStr (lowerStr x) = [] ∨ trimStr (lowerStr y) = []
    · rw [if_pos h2] at h
      norm_num at h
    · rw [if_neg h2] at h
      set t1 := (wordsOf (trimStr (lowerStr x))).toFinset with ht1
      set t2 := (wordsOf (trimStr (lowerStr y))).toFinset with ht2
      have hsub : t1 ∩ t2 ⊆ t1 ∪ t2 := Finset.inter_subset_union
      have hcard : (t1 ∩ t2).card ≤ (t1 ∪ t2).card := Finset.card_le_card hsub
      rcases Nat.eq_zero_or_pos (t1 ∪ t2).card with hu | hu
      · have hi : (t1 ∩ t2).card = 0 := Nat.le_antisymm (hu ▸ hcard) (Nat.zero_le _)
        rw [hi, hu] at h
        norm_num at h
      · have hu' : (0 : ℚ) < ((t1 ∪ t2).card : ℚ) := by exact_mod_cast hu
        rw [le_div_iff₀ hu', one_mul] at h
        have hle : (t1 ∪ t2).card ≤ (t1 ∩ t2).card := by exact_mod_cast h
        have heq : t1 ∩ t2 = t1 ∪ t2 := Finset.eq_of_subset_of_card_le hsub hle
        have h12 : t1 ⊆ t2 := by
          intro a ha
          have : a ∈ t1 ∪ t2 := Finset.mem_union_left _ ha
          rw [← heq] at this
          exact (Finset.mem_inter.1 this).2
        have h21 : t2 ⊆ t1 := by
          intro a ha
          have : a ∈ t1 ∪ t2 := Finset.mem_union_right _ ha
          rw [← heq] at this
          exact (Finset.mem_inter.1 this).1
        exact Finset.Subset.antisymm h12 h21

/-- Every record claimed by the inner loop scored at least the threshold
against the seed's normalized title. -/
theorem collectSims_mem {nt : Str} {th : ℚ} :
    ∀ {bs : List Book} {P : Finset Nat} {x : Book},
      x ∈ (collectSims nt th bs P).1 → th ≤ similarity nt (normalizeTitle x.title) := by
  intro bs
  induction bs with
  | nil =>
    intro P x h
    simp [collectSims] at h
  | cons b bs ih =>
    intro P x h
    simp only [collectSims] at h
    split_ifs at h with h1 h2
    · exact ih h
    · simp only [List.mem_cons] at h
      rcases h with rfl | h3
      · exact h2
      · exact ih h3
    · exact ih h

/-- Every emitted title-strategy group is a seed record followed by records
that scored at least the threshold against the seed's normalized title. -/
theorem byTitleGo_mem {th : ℚ} {lim : Nat} :
    ∀ {bs : List Book} {P : Finset Nat} {c : Nat} {g : DuplicateGroup},
      g ∈ byTitleGo th lim bs P c →
      ∃ seed rest, g.books = seed :: rest ∧
        ∀ x ∈ rest, th ≤ similarity (normalizeTitle seed.title) (normalizeTitle x.title) := by
  intro bs
  induction bs with
  | nil =>
    intro P c g h
    simp [byTitleGo] at h
  | cons b bs ih =>
    intro P c g h
    simp only [byTitleGo] at h
    split_ifs at h with h1 h2 h3
    · simp at h
    · exact ih h
    · simp only [List.mem_cons] at h
      rcases h with rfl | h4
      · exact ⟨b, (collectSims (normalizeTitle b.title) th bs (insert b.id P)).1, rfl,
          fun x hx => collectSims_mem hx⟩
      · exact ih h4
    · exact ih h

/-- The two-record scenario refuting claim C2. -/
def C2books : List Book :=
  [⟨1, ("blue moon").toList, ("x").toList, none, none⟩,
   ⟨2, ("moon blue").toList, ("y").toList, none, none⟩]

unseal Rat.mul Rat.inv in
/-- Claim C2 counterexample: at threshold 1 the title strategy groups
`"blue moon"` with `"moon blue"` — their token sets coincide, so the
Jaccard branch returns 1 — even though the two normalized titles are
different strings.  Exact post-normalization string equality is therefore
NOT required at threshold 1. -/
theorem C2_counterexample :
    (findDuplicatesByTitle C2books 1 20).map (fun g => g.books.map Book.id) = [[1, 2]] ∧
    normalizeTitle (("blue moon").toList) ≠ normalizeTitle (("moon blue").toList) := by
  decide

/-- Claim C2 (amended): at threshold 1 the full-scan title strategy groups
two records together only if their normalized titles are seen as equal
whitespace-token SETS by the scorer (identical strings, reordered words,
or duplicated words all qualify); and with threshold 0 every comparison
passes, since every similarity score is at least 0. -/
theorem C2_amended :
    (∀ (books : List Book) (lim : Nat) (g : DuplicateGroup),
        g ∈ findDuplicatesByTitle books 1 lim →
        ∀ b1 ∈ g.books, ∀ b2 ∈ g.books,
          scorerTokens (normalizeTitle b1.title) = scorerTokens (normalizeTitle b2.title)) ∧
    (∀ x y : Str, 0 ≤ similarity x y) := by
  constructor
  · intro books lim g hg b1 hb1 b2 hb2
    obtain ⟨seed, rest, hbooks, hsim⟩ := byTitleGo_mem hg
    have key : ∀ b ∈ g.books,
        scorerTokens (normalizeTitle seed.title) = scorerTokens (normalizeTitle b.title) := by
      intro b hb
      rw [hbooks] at hb
      rcases List.mem_cons.1 hb with rfl | hb
      · rfl
      · exact sim_one_tokens (hsim b hb)
    rw [← key b1 hb1]
    exact key b2 hb2
  · exact fun x y => similarity_nonneg x y

unseal Rat.mul Rat.inv Rat.add in
/-- Claim C2 amended witness, at the grouped pair of `C2books`. -/
theorem C2_amended_witness :
    scorerTokens (normalizeTitle (("blue moon").toList))
      = scorerTokens (normalizeTitle (("moon blue").toList)) :=
  C2_amended.1 C2books 20
    ⟨titleReason 1, [⟨1, ("blue moon").toList, ("x").toList, none, none⟩,
                     ⟨2, ("moon blue").toList, ("y").toList, none, none⟩]⟩
    (by decide)
    ⟨1, ("blue moon").toList, ("x").toList, none, none⟩ (by decide)
    ⟨2, ("moon blue").toList, ("y").toList, none, none⟩ (by decide)

/-! ### C3 -/

/-- Every emitted identifier-strategy group is the bucket of some token
from the token-insertion order, with at least two entries. -/
theorem identGo_mem {books : List Book} {lim : Nat} :
    ∀ {ts proc : List Str} {c : Nat} {g : DuplicateGroup},
      g ∈ identGo books lim ts proc c →
      ∃ t ∈ ts, g.books = identBucket books t ∧ 2 ≤ (identBucket books t).length := by
  intro ts
  induction ts with
  | nil =>
    intro proc c g h
    simp [identGo] at h
  | cons t ts ih =>
    intro proc c g h
    simp only [identGo] at h
    split_ifs at h with h1 h2
    · obtain ⟨u, hu, hh⟩ := ih h
      exact ⟨u, List.mem_cons_of_mem _ hu, hh⟩
    · simp at h
    · push_neg at h1
      simp only [List.mem_cons] at h
      rcases h with rfl | h3
      · exact ⟨t, List.mem_cons_self _ _, rfl, h1.1⟩
      · obtain ⟨u, hu, hh⟩ := ih h3
        exact ⟨u, List.mem_cons_of_mem _ hu, hh⟩

/-- Elements of the insert-if-new fold come from the seed or the list. -/
theorem foldl_insertNew_mem {t : Str} :
    ∀ (l : List Str) (ks : List Str),
      t ∈ l.foldl (fun ks u => if u ∈ ks then ks else ks ++ [u]) ks →
      t ∈ ks ∨ t ∈ l := by
  intro l
  induction l with
  | nil =>
    intro ks h
    exact Or.inl h
  | cons u l ih =>
    intro ks h
    rcases ih _ h with h1 | h1
    · change t ∈ if u ∈ ks then ks else ks ++ [u] at h1
      by_cases hu : u ∈ ks
      · rw [if_pos hu] at h1
        exact Or.inl h1
      · rw [if_neg hu] at h1
        rcases List.mem_append.1 h1 with h2 | h2
        · exact Or.inl h2
        · simp only [List.mem_singleton] at h2
          exact Or.inr (h2 ▸ List.mem_cons_self _ _)
    · exact Or.inr (List.mem_cons_of_mem _ h1)

/-- Every token in the `byIdentifier` key order is a kept token of some
book. -/
theorem identTokenOrder_mem {t : Str} :
    ∀ {books : List Book}, t ∈ identTokenOrder books → ∃ b ∈ books, t ∈ validTokensOf b := by
  have main : ∀ (books : List Book) (ks : List Str),
      t ∈ books.foldl
        (fun ks b => (validTokensOf b).foldl (fun ks t => if t ∈ ks then ks else ks ++ [t]) ks)
        ks →
      t ∈ ks ∨ ∃ b ∈ books, t ∈ validTokensOf b := by
    intro books
    induction books with
    | nil =>
      intro ks h
      exact Or.inl h
    | cons b bs ih =>
      intro ks h
      rcases ih _ h with h1 | h1
      · rcases foldl_insertNew_mem _ _ h1 with h2 | h2
        · exact Or.inl h2
        · exact Or.inr ⟨b, List.mem_cons_self _ _, h2⟩
      · obtain ⟨b', hb', ht⟩ := h1
        exact Or.inr ⟨b', List.mem_cons_of_mem _ hb', ht⟩
  intro books h
  rcases main books [] h with h1 | h1
  · simp at h1
  · exact h1

/-- Kept tokens are non-empty and differ from the literal `"null"`. -/
theorem validTokensOf_valid {b : Book} {t : Str} (h : t ∈ validTokensOf b) :
    ¬(t = [] ∨ t = ("null").toList) := by
  unfold validTokensOf at h
  have h2 := (List.mem_filter.1 h).2
  simpa using h2

/-- Bucket members carry the bucket's token among their kept tokens. -/
theorem identBucket_mem {books : List Book} {t : Str} {b : Book}
    (h : b ∈ identBucket books t) : b ∈ books ∧ t ∈ validTokensOf b := by
  unfold identBucket at h
  obtain ⟨b', hb', hmem⟩ := List.mem_flatMap.1 h
  obtain ⟨hcount, heq⟩ := (List.mem_replicate).1 hmem
  rw [heq]
  refine ⟨hb', ?_⟩
  have hp : 0 < (validTokensOf b').count t := Nat.pos_of_ne_zero hcount
  exact List.count_pos_iff.1 hp

/-- The records of the targeted-mode counterexample for claim C3: the
focal record and another record whose only identifier token is `null`. -/
def C3target : Book := ⟨1, ("x").toList, ("a").toList, some (("null").toList), none⟩

/-- Second record of the C3 counterexample. -/
def C3other : Book := ⟨2, ("y").toList, ("b").toList, some (("null").toList), none⟩

unseal Rat.mul Rat.inv in
/-- Claim C3 counterexample: in targeted identifier mode the raw comma
tokens are compared with no dropping of empty or `null` tokens, so two
records whose only shared token is `null` ARE matched — while the full
scan on the same records correctly drops the token and finds nothing. -/
theorem C3_counterexample :
    targetedDuplicates Mode.identifier C3target [C3target, C3other] (4/5) = [C3other] ∧
    rawIdTokens C3target = [("null").toList] ∧
    rawIdTokens C3other = [("null").toList] ∧
    findDuplicatesByIdentifier [C3target, C3other] 20 = [] := by
  decide

/-- Claim C3 (amended): the FULL-SCAN identifier strategy matches only via
a shared token that is non-empty and not the literal `null` — every
emitted group is the bucket of such a token, shared by all its members.
TARGETED identifier mode, however, compares the raw trimmed lower-cased
comma tokens without dropping empty or `null` tokens: a returned record
merely shares some raw token with the focal record. -/
theorem C3_amended :
    (∀ (books : List Book) (lim : Nat) (g : DuplicateGroup),
        g ∈ findDuplicatesByIdentifier books lim →
        ∃ t, ¬(t = [] ∨ t = ("null").toList) ∧ g.books = identBucket books t ∧
          ∀ b ∈ g.books, t ∈ validTokensOf b) ∧
    (∀ (targetBook : Book) (books : List Book) (th : ℚ) (b : Book),
        idsTruthy targetBook = true →
        b ∈ targetedDuplicates Mode.identifier targetBook books th →
        b.id ≠ targetBook.id ∧ ∃ t ∈ rawIdTokens b, t ∈ rawIdTokens targetBook) := by
  constructor
  · intro books lim g hg
    obtain ⟨t, ht, hbooks, _⟩ := identGo_mem hg
    obtain ⟨b', _, htok⟩ := identTokenOrder_mem ht
    refine ⟨t, validTokensOf_valid htok, hbooks, ?_⟩
    intro b hb
    rw [hbooks] at hb
    exact (identBucket_mem hb).2
  · intro targetBook books th b htr hb
    unfold targetedDuplicates at hb
    rw [if_pos ⟨rfl, htr⟩] at hb
    have h2 := (List.mem_filter.1 hb).2
    simp only [decide_eq_true_eq, List.any_eq_true, List.mem_toFinset] at h2
    exact ⟨h2.1, h2.2.2⟩

/-- The spec's identifier-scenario record with id 5. -/
def C3book5 : Book := ⟨5, ("Foo").toList, ("X").toList, some (("isbn:123").toList), none⟩

/-- The spec's identifier-scenario record with id 6. -/
def C3book6 : Book := ⟨6, ("Foo 2").toList, ("X").toList,
  some (("ISBN:123, asin:999").toList), none⟩

/-- The group the full scan emits for `C3book5`/`C3book6`. -/
def C3group : DuplicateGroup :=
  ⟨("Matching identifier: isbn:123").toList, [C3book5, C3book6]⟩

/-- Claim C3 amended witness: both parts applied at concrete records. -/
theorem C3_amended_witness :
    (∃ t, ¬(t = [] ∨ t = ("null").toList) ∧ C3group.books = identBucket [C3book5, C3book6] t ∧
      ∀ b ∈ C3group.books, t ∈ validTokensOf b) ∧
    (C3other.id ≠ C3target.id ∧ ∃ t ∈ rawIdTokens C3other, t ∈ rawIdTokens C3target) :=
  ⟨C3_amended.1 [C3book5, C3book6] 20 C3group (by decide),
   C3_amended.2 C3target [C3target, C3other] (4/5) C3other (by decide) (by decide)⟩

/-! ### C5 -/

/-- The inner loop only claims records from the list it walks. -/
theorem collectSims_subset {nt : Str} {th : ℚ} :
    ∀ {bs : List Book} {P : Finset Nat} {x : Book},
      x ∈ (collectSims nt th bs P).1 → x ∈ bs := by
  intro bs
  induction bs with
  | nil =>
    intro P x h
    simp [collectSims] at h
  | cons b bs ih =>
    intro P x h
    simp only [collectSims] at h
    split_ifs at h with h1 h2
    · exact List.mem_cons_of_mem _ (ih h)
    · simp only [List.mem_cons] at h
      rcases h with rfl | h3
      · exact List.mem_cons_self _ _
      · exact List.mem_cons_of_mem _ (ih h3)
    · exact List.mem_cons_of_mem _ (ih h)

/-- Groups built inside one author bucket only contain that bucket's
records. -/
theorem authorBucketGo_books {th : ℚ} {lim : Nat} {a : Str} :
    ∀ {bs : List Book} {P : Finset Nat} {c : Nat} {g : DuplicateGroup},
      g ∈ (authorBucketGo th lim a bs P c).1 → ∀ x ∈ g.books, x ∈ bs := by
  intro bs
  induction bs with
  | nil =>
    intro P c g h
    simp [authorBucketGo] at h
  | cons b bs ih =>
    intro P c g h
    simp only [authorBucketGo] at h
    split_ifs at h with h1 h2 h3
    · simp at h
    · intro x hx
      exact List.mem_cons_of_mem _ (ih h x hx)
    · simp only [List.mem_cons] at h
      rcases h with rfl | h4
      · intro x hx
        rcases List.mem_cons.1 hx with rfl | hx2
        · exact List.mem_cons_self _ _
        · exact List.mem_cons_of_mem _ (collectSims_subset hx2)
      · intro x hx
        exact List.mem_cons_of_mem _ (ih h4 x hx)
    · intro x hx
      exact List.mem_cons_of_mem _ (ih h x hx)

/-- Records of one author bucket share that bucket's author key. -/
theorem bucketOf_key {books : List Book} {k : Str} {b : Book}
    (h : b ∈ bucketOf books k) : authorKey b = k := by
  unfold bucketOf at h
  have h2 := (List.mem_filter.1 h).2
  simpa using h2

/-- Every group emitted by the author_title scan lives inside a single
author bucket, so all its members share one author key. -/
theorem authorTitle_key {books : List Book} {th : ℚ} {lim : Nat} {g : DuplicateGroup}
    (hg : g ∈ findDuplicatesByAuthorTitle books th lim) :
    ∃ k, ∀ b ∈ g.books, authorKey b = k := by
  unfold findDuplicatesByAuthorTitle at hg
  have main : ∀ (ks : List Str) (acc : List DuplicateGroup × Finset Nat),
      (∀ g ∈ acc.1, ∃ k, ∀ b ∈ g.books, authorKey b = k) →
      ∀ g ∈ (ks.foldl (authorFoldStep books th lim) acc).1,
        ∃ k, ∀ b ∈ g.books, authorKey b = k := by
    intro ks
    induction ks with
    | nil =>
      intro acc hacc g hgg
      exact hacc g hgg
    | cons k ks ih =>
      intro acc hacc g hgg
      rw [List.foldl_cons] at hgg
      refine ih _ ?_ g hgg
      intro g' hg'
      unfold authorFoldStep at hg'
      simp only [] at hg'
      split_ifs at hg' with hb
      · exact hacc g' hg'
      · rcases List.mem_append.1 hg' with h1 | h1
        · exact hacc g' h1
        · refine ⟨k, ?_⟩
          intro b hb2
          exact bucketOf_key (authorBucketGo_books h1 b hb2)
  exact main (bucketKeys books) ([], ∅) (by simp) g hg

/-- The focal record of the C5 counterexample. -/
def C5target : Book := ⟨1, ("Dune").toList, ("Frank Herbert").toList, none, none⟩

/-- The C5 record whose author differs only by surrounding whitespace. -/
def C5other : Book := ⟨2, ("Dune").toList, (" Frank Herbert ").toList, none, none⟩

unseal Rat.mul Rat.inv in
/-- Claim C5 counterexample: two records whose author strings differ only
in surrounding whitespace are bucketed together by the full scan (which
trims), but targeted author-scoped matching compares lower-cased author
strings WITHOUT trimming, so it rejects the pair even though the titles
are identical. -/
theorem C5_counterexample :
    targetedDuplicates Mode.author_title C5target [C5target, C5other] (4/5) = [] ∧
    (findDuplicatesByAuthorTitle [C5target, C5other] (4/5) 20).map
      (fun g => g.books.map Book.id) = [[1, 2]] := by
  decide

/-- Claim C5 (amended): the full scan treats two records as same-author
exactly when their author strings agree after case-folding AND trimming
(every emitted group's members share one trimmed lower-cased author key);
targeted author-scoped matching instead requires equality after
case-folding ONLY, so author strings differing in surrounding whitespace
are same-author for the full scan but not for targeted mode. -/
theorem C5_amended :
    (∀ (books : List Book) (th : ℚ) (lim : Nat) (g : DuplicateGroup),
        g ∈ findDuplicatesByAuthorTitle books th lim →
        ∀ b1 ∈ g.books, ∀ b2 ∈ g.books, authorKey b1 = authorKey b2) ∧
    (∀ (targetBook : Book) (books : List Book) (th : ℚ) (b : Book),
        b ∈ targetedDuplicates Mode.author_title targetBook books th →
        lowerStr b.authors = lowerStr targetBook.authors ∧ b.id ≠ targetBook.id) := by
  constructor
  · intro books th lim g hg b1 hb1 b2 hb2
    obtain ⟨k, hk⟩ := authorTitle_key hg
    rw [hk b1 hb1, hk b2 hb2]
  · intro targetBook books th b hb
    unfold targetedDuplicates at hb
    rw [if_neg (fun hc => absurd hc.1 (by simp))] at hb
    have h2 := (List.mem_filter.1 hb).2
    split_ifs at h2 with hid hau
    rw [not_and, not_not] at hau
    exact ⟨hau rfl, hid⟩

unseal Rat.mul Rat.inv in
/-- Claim C5 amended witness: full-scan and targeted parts applied at the
case-only-differing author pair `"Frank Herbert"` / `"frank herbert"`. -/
theorem C5_amended_witness :
    (authorKey C5target = authorKey C5other) ∧
    (lowerStr (("frank herbert").toList) = lowerStr C5target.authors ∧ (2 : Nat) ≠ 1) :=
  ⟨(C5_amended.1 [C5target, C5other] (4/5) 20
      ⟨authorReason (("frank herbert").toList), [C5target, C5other]⟩ (by decide)
      C5target (by decide) C5other (by decide)),
   C5_amended.2 C5target
     [C5target, ⟨2, ("Dune").toList, ("frank herbert").toList, none, none⟩] (4/5)
     ⟨2, ("Dune").toList, ("frank herbert").toList, none, none⟩ (by decide)⟩

/-! ### C6 -/

/-- Bookkeeping facts about the inner claim loop: claimed ids are distinct,
fresh with respect to the incoming claimed set, and the outgoing claimed
set extends the incoming one and contains every claimed id. -/
theorem collectSims_ids {nt : Str} {th : ℚ} :
    ∀ {bs : List Book} {P : Finset Nat},
      (((collectSims nt th bs P).1.map Book.id).Nodup) ∧
      (∀ x ∈ (collectSims nt th bs P).1, x.id ∉ P) ∧
      (P ⊆ (collectSims nt th bs P).2) ∧
      (∀ x ∈ (collectSims nt th bs P).1, x.id ∈ (collectSims nt th bs P).2) := by
  intro bs
  induction bs with
  | nil =>
    intro P
    simp [collectSims]
  | cons b bs ih =>
    intro P
    simp only [collectSims]
    split_ifs with h1 h2
    · exact ih
    · obtain ⟨ihn, ihnotin, ihsub, ihin⟩ := ih (P := insert b.id P)
      refine ⟨?_, ?_, ?_, ?_⟩
      · simp only [List.map_cons, List.nodup_cons]
        refine ⟨?_, ihn⟩
        intro hmem
        obtain ⟨x, hx, hxid⟩ := List.mem_map.1 hmem
        exact ihnotin x hx (by rw [hxid]; exact Finset.mem_insert_self _ _)
      · intro x hx
        rcases List.mem_cons.1 hx with rfl | hx
        · exact h1
        · exact fun hxP => ihnotin x hx (Finset.mem_insert_of_mem hxP)
      · exact fun a ha => ihsub (Finset.mem_insert_of_mem ha)
      · intro x hx
        rcases List.mem_cons.1 hx with rfl | hx
        · exact ihsub (Finset.mem_insert_self _ _)
        · exact ihin x hx
    · exact ih

/-- Bookkeeping facts about the title-strategy outer loop: emitted ids are
distinct and fresh with respect to the incoming claimed set. -/
theorem byTitleGo_nodup {th : ℚ} {lim : Nat} :
    ∀ {bs : List Book} {P : Finset Nat} {c : Nat},
      (groupIds (byTitleGo th lim bs P c)).Nodup ∧
      (∀ a ∈ groupIds (byTitleGo th lim bs P c), a ∉ P) := by
  intro bs
  induction bs with
  | nil =>
    intro P c
    simp [byTitleGo, groupIds]
  | cons b bs ih =>
    intro P c
    simp only [byTitleGo]
    split_ifs with h1 h2 h3
    · simp [groupIds]
    · exact ih
    · obtain ⟨cn, cnotin, csub, cin⟩ :=
        @collectSims_ids (normalizeTitle b.title) th bs (insert b.id P)
      obtain ⟨rn, rnotin⟩ :=
        ih (P := (collectSims (normalizeTitle b.title) th bs (insert b.id P)).2) (c := c + 1)
      constructor
      · simp only [groupIds, List.flatMap_cons]
        apply List.Nodup.append
        · simp only [List.map_cons, List.nodup_cons]
          refine ⟨?_, cn⟩
          intro hmem
          obtain ⟨x, hx, hxid⟩ := List.mem_map.1 hmem
          exact cnotin x hx (by rw [hxid]; exact Finset.mem_insert_self _ _)
        · exact rn
        · intro a ha1 ha2
          have haR : a ∈ (collectSims (normalizeTitle b.title) th bs (insert b.id P)).2 := by
            obtain ⟨x, hx, hxid⟩ := List.mem_map.1 ha1
            rcases List.mem_cons.1 hx with rfl | hx
            · exact hxid ▸ csub (Finset.mem_insert_self _ _)
            · exact hxid ▸ cin x hx
          exact rnotin a ha2 haR
      · intro a ha
        simp only [groupIds, List.flatMap_cons, List.mem_append] at ha
        rcases ha with ha | ha
        · obtain ⟨x, hx, hxid⟩ := List.mem_map.1 ha
          rcases List.mem_cons.1 hx with rfl | hx
          · exact hxid ▸ h2
          · exact fun hP => cnotin x hx (Finset.mem_insert_of_mem (hxid ▸ hP))
        · exact fun hP => rnotin a ha (csub (Finset.mem_insert_of_mem hP))
    · obtain ⟨cn, cnotin, csub, cin⟩ :=
        @collectSims_ids (normalizeTitle b.title) th bs (insert b.id P)
      obtain ⟨rn, rnotin⟩ :=
        ih (P := (collectSims (normalizeTitle b.title) th bs (insert b.id P)).2) (c := c)
      exact ⟨rn, fun a ha hP => rnotin a ha (csub (Finset.mem_insert_of_mem hP))⟩

/-- Bookkeeping facts about the author-bucket loop, with the shared claimed
set threaded through. -/
theorem authorBucketGo_nodup {th : ℚ} {lim : Nat} {au : Str} :
    ∀ {bs : List Book} {P : Finset Nat} {c : Nat},
      (groupIds (authorBucketGo th lim au bs P c).1).Nodup ∧
      (∀ a ∈ groupIds (authorBucketGo th lim au bs P c).1, a ∉ P) ∧
      (P ⊆ (authorBucketGo th lim au bs P c).2) ∧
      (∀ a ∈ groupIds (authorBucketGo th lim au bs P c).1,
        a ∈ (authorBucketGo th lim au bs P c).2) := by
  intro bs
  induction bs with
  | nil =>
    intro P c
    simp [authorBucketGo, groupIds]
  | cons b bs ih =>
    intro P c
    simp only [authorBucketGo]
    split_ifs with h1 h2 h3
    · simp [groupIds]
    · exact ih
    · obtain ⟨cn, cnotin, csub, cin⟩ :=
        @collectSims_ids (normalizeTitle b.title) th bs (insert b.id P)
      obtain ⟨rn, rnotin, rsub, rin⟩ :=
        ih (P := (collectSims (normalizeTitle b.title) th bs (insert b.id P)).2) (c := c + 1)
      have hbid : b.id ∈ (authorBucketGo th lim au bs
          (collectSims (normalizeTitle b.title) th bs (insert b.id P)).2 (c + 1)).2 :=
        rsub (csub (Finset.mem_insert_self _ _))
      refine ⟨?_, ?_, ?_, ?_⟩
      · simp only [groupIds, List.flatMap_cons]
        apply List.Nodup.append
        · simp only [List.map_cons, List.nodup_cons]
          refine ⟨?_, cn⟩
          intro hmem
          obtain ⟨x, hx, hxid⟩ := List.mem_map.1 hmem
          exact cnotin x hx (by rw [hxid]; exact Finset.mem_insert_self _ _)
        · exact rn
        · intro a ha1 ha2
          have haR : a ∈ (collectSims (normalizeTitle b.title) th bs (insert b.id P)).2 := by
            obtain ⟨x, hx, hxid⟩ := List.mem_map.1 ha1
            rcases List.mem_cons.1 hx with rfl | hx
            · exact hxid ▸ csub (Finset.mem_insert_self _ _)
            · exact hxid ▸ cin x hx
          exact rnotin a ha2 haR
      · intro a ha
        simp only [groupIds, List.flatMap_cons, List.mem_append] at ha
        rcases ha with ha | ha
        · obtain ⟨x, hx, hxid⟩ := List.mem_map.1 ha
          rcases List.mem_cons.1 hx with rfl | hx
          · exact hxid ▸ h2
          · exact fun hP => cnotin x hx (Finset.mem_insert_of_mem (hxid ▸ hP))
        · exact fun hP => rnotin a ha (csub (Finset.mem_insert_of_mem hP))
      · exact fun a ha => rsub (csub (Finset.mem_insert_of_mem ha))
      · intro a ha
        simp only [groupIds, List.flatMap_cons, List.mem_append] at ha
        rcases ha with ha | ha
        · obtain ⟨x, hx, hxid⟩ := List.mem_map.1 ha
          rcases List.mem_cons.1 hx with rfl | hx
          · exact hxid ▸ hbid
          · exact hxid ▸ rsub (cin x hx)
        · exact rin a ha
    · obtain ⟨cn, cnotin, csub, cin⟩ :=
        @collectSims_ids (normalizeTitle b.title) th bs (insert b.id P)
      obtain ⟨rn, rnotin, rsub, rin⟩ :=
        ih (P := (collectSims (normalizeTitle b.title) th bs (insert b.id P)).2) (c := c)
      exact ⟨rn, fun a ha hP => rnotin a ha (csub (Finset.mem_insert_of_mem hP)),
        fun a ha => rsub (csub (Finset.mem_insert_of_mem ha)), rin⟩

/-- Emitted ids of the author_title full scan are distinct across (and
inside) groups. -/
theorem authorTitle_nodup {books : List Book} {th : ℚ} {lim : Nat} :
    (groupIds (findDuplicatesByAuthorTitle books th lim)).Nodup := by
  unfold findDuplicatesByAuthorTitle
  have main : ∀ (ks : List Str) (acc : List DuplicateGroup × Finset Nat),
      (groupIds acc.1).Nodup →
      (∀ a ∈ groupIds acc.1, a ∈ acc.2) →
      (groupIds (ks.foldl (authorFoldStep books th lim) acc).1).Nodup ∧
      (∀ a ∈ groupIds (ks.foldl (authorFoldStep books th lim) acc).1,
        a ∈ (ks.foldl (authorFoldStep books th lim) acc).2) := by
    intro ks
    induction ks with
    | nil =>
      intro acc h1 h2
      exact ⟨h1, h2⟩
    | cons k ks ih =>
      intro acc h1 h2
      rw [List.foldl_cons]
      apply ih
      · unfold authorFoldStep
        simp only []
        split_ifs with hb
        · exact h1
        · obtain ⟨gn, gnotin, gsub, gin⟩ :=
            @authorBucketGo_nodup th lim k (bucketOf books k) acc.2 acc.1.length
          simp only [groupIds, List.flatMap_append]
          apply List.Nodup.append h1 gn
          intro a ha1 ha2
          exact gnotin a ha2 (h2 a ha1)
      · unfold authorFoldStep
        simp only []
        split_ifs with hb
        · exact h2
        · obtain ⟨gn, gnotin, gsub, gin⟩ :=
            @authorBucketGo_nodup th lim k (bucketOf books k) acc.2 acc.1.length
          intro a ha
          simp only [groupIds, List.flatMap_append, List.mem_append] at ha
          rcases ha with ha | ha
          · exact gsub (h2 a ha)
          · exact gin a ha
  exact (main (bucketKeys books) ([], ∅) (by simp [groupIds]) (by simp [groupIds])).1

/-- Claim C6: in both the title and the author_title full scans, the
emitted groups are id-exclusive — the concatenation of all member ids
contains no duplicate, so each record id occurs in at most one group. -/
theorem C6_group_exclusivity (books : List Book) (th : ℚ) (lim : Nat) :
    (groupIds (findDuplicatesByTitle books th lim)).Nodup ∧
    (groupIds (findDuplicatesByAuthorTitle books th lim)).Nodup :=
  ⟨(@byTitleGo_nodup th lim books ∅ 0).1, authorTitle_nodup⟩

/-! ### C7 -/

/-- Claim C7: when the focal id is absent from the record set, targeted
mode returns the dedicated not-found outcome naming the missing id — for
every strategy, threshold and limit, without any grouping work — and that
outcome is never equal to the zero-duplicates success outcome of any
focal record. -/
theorem C7_not_found (mode : Mode) (i : Nat) (th : ℚ) (lim : Nat) (library : List Book)
    (h : ∀ b ∈ library, b.id ≠ i) :
    findDuplicates mode (some i) th lim library = notFoundMsg i ∧
    ∀ b : Book, notFoundMsg i ≠ noDupMsg b := by
  constructor
  · have hf : library.find? (fun b => b.id = i) = none := by
      rw [List.find?_eq_none]
      intro x hx
      simpa using h x hx
    show (match library.find? (fun b => b.id = i) with
      | none => notFoundMsg i
      | some targetBook =>
        let duplicates := targetedDuplicates mode targetBook library th
        if duplicates.length = 0 then noDupMsg targetBook
        else targetedReport targetBook duplicates) = notFoundMsg i
    rw [hf]
  · intro b hcontra
    have h1 : (notFoundMsg i).head? = some 'B' := rfl
    rw [hcontra] at h1
    have h2 : (noDupMsg b).head? = some 'N' := rfl
    rw [h2] at h1
    simp at h1

/-- Claim C7 witness at a one-record library missing id 1. -/
theorem C7_not_found_witness :
    findDuplicates Mode.title (some 1) (4/5) 20 [⟨2, ("t").toList, ("a").toList, none, none⟩]
      = notFoundMsg 1 ∧
    notFoundMsg 1 ≠ noDupMsg ⟨2, ("t").toList, ("a").toList, none, none⟩ :=
  ⟨(C7_not_found Mode.title 1 (4/5) 20 [⟨2, ("t").toList, ("a").toList, none, none⟩]
      (by decide)).1,
   (C7_not_found Mode.title 1 (4/5) 20 [⟨2, ("t").toList, ("a").toList, none, none⟩]
      (by decide)).2 ⟨2, ("t").toList, ("a").toList, none, none⟩⟩

/-! ### C10 -/

/-- Claim C10: in targeted mode, for every strategy, the returned list
never contains a record with the focal record's id, and the returned
records form a sublist of the supplied record set — they appear in input
order. -/
theorem C10_targeted_excludes_focal (mode : Mode) (targetBook : Book)
    (allBooks : List Book) (th : ℚ) :
    (∀ b ∈ targetedDuplicates mode targetBook allBooks th, b.id ≠ targetBook.id) ∧
    (targetedDuplicates mode targetBook allBooks th).Sublist allBooks := by
  unfold targetedDuplicates
  split_ifs with hc
  · constructor
    · intro b hb
      have h2 := (List.mem_filter.1 hb).2
      simp only [decide_eq_true_eq] at h2
      exact h2.1
    · exact List.filter_sublist _
  · constructor
    · intro b hb
      have h2 := (List.mem_filter.1 hb).2
      split_ifs at h2 with hid hau
      exact hid
    · exact List.filter_sublist _

/-- The focal record of the C10 witness. -/
def C10target : Book := ⟨1, ("Dune").toList, ("a").toList, none, none⟩

/-- The similar record of the C10 witness. -/
def C10other : Book := ⟨2, ("Dune").toList, ("b").toList, none, none⟩

unseal Rat.mul Rat.inv in
/-- Claim C10 witness: with the title strategy, the second record is
returned and its id differs from the focal id; the result is a sublist of
the record set. -/
theorem C10_witness :
    C10other.id ≠ C10target.id ∧
    (targetedDuplicates Mode.title C10target [C10target, C10other] (4/5)).Sublist
      [C10target, C10other] :=
  ⟨(C10_targeted_excludes_focal Mode.title C10target [C10target, C10other] (4/5)).1
      C10other (by decide),
   (C10_targeted_excludes_focal Mode.title C10target [C10target, C10other] (4/5)).2⟩

end DupEngine
